import Mathlib

/-!
Shallow embedding of `shotcounter.py` (ShotCounter, a team-based drink
counter web app).  The durable state is the file `teams.json`; every API
endpoint acquires the single `data_lock`, loads the full team list,
validates/mutates it and writes it back before releasing the lock, so each
endpoint body is modelled as one atomic transition on the file state.
-/

namespace ShotCounter

/-- One team record, as stored in `teams.json`: the dict
`{"id": ..., "name": ..., "score": ..., "hidden": ...}` created by
`api_add_team`. -/
structure Team where
  id : String
  name : String
  score : Int
  hidden : Bool
deriving DecidableEq

/-- Embedding of Python's `str.strip()`: drop leading and trailing
whitespace. -/
def strip (s : String) : String :=
  ⟨((s.data.dropWhile Char.isWhitespace).reverse.dropWhile Char.isWhitespace).reverse⟩

/-- Embedding of Python's `str.lower()`. -/
def lower (s : String) : String :=
  ⟨s.data.map Char.toLower⟩

/-- The observable state of the durable artifact `teams.json`: missing,
present but not valid JSON, or a well-formed list of team records. -/
inductive FileState where
  | absent
  | malformed
  | good (teams : List Team)
deriving DecidableEq

/-- Embedding of `load_teams()`: returns `[]` when the file does not exist, returns `[]`
when `json.load` raises `JSONDecodeError`, and otherwise returns the stored
list. -/
def loadTeams : FileState → List Team
  | .absent => []
  | .malformed => []
  | .good teams => teams

/-- Embedding of `save_teams(teams)`: writes the full list to `teams.json`. -/
def saveTeams (teams : List Team) : FileState :=
  .good teams

/-- The body of `api_get_teams`: the visible teams, sorted by score
descending.  Python's `list.sort(key=..., reverse=True)` is a stable sort,
which `List.mergeSort` also is. -/
def listActive (teams : List Team) : List Team :=
  (teams.filter fun t => !t.hidden).mergeSort fun a b => b.score ≤ a.score

/-- Endpoint `GET /api/teams`: loads under the lock, filters and sorts; never
writes. -/
def apiGetTeams (s : FileState) : List Team × FileState :=
  (listActive (loadTeams s), s)

/-- Outcome of `POST /api/team`: the two `400` branches of `api_add_team`
("Team name is required", "Team already exists") or success with the new
record. -/
inductive AddResult where
  | ok (team : Team)
  | errNameRequired
  | errAlreadyExists
deriving DecidableEq

/-- Endpoint `POST /api/team` (`api_add_team`).  `newId` stands for the value of
`str(uuid.uuid4())` generated in the body; `rawName` is the name from the
request. -/
def apiAddTeam (newId : String) (rawName : String) (s : FileState) :
    AddResult × FileState :=
  let name := strip rawName
  if name = "" then (.errNameRequired, s)
  else
    let teams := loadTeams s
    if teams.any fun t => !t.hidden && lower t.name == lower name then
      (.errAlreadyExists, s)
    else
      let team : Team := { id := newId, name := name, score := 0, hidden := false }
      (.ok team, saveTeams (teams ++ [team]))

/-- Outcome of `POST /api/score`: "Missing team id" (`400`),
"Team not found" (`404`), or success. -/
inductive ScoreResult where
  | ok
  | errMissingId
  | errNotFound
deriving DecidableEq

/-- The `for t in teams` loop of `api_change_score`: update the first
record whose `id` matches and which is not hidden, clamping the new score
at `0`; `none` when no such record exists (`found` stays `False`). -/
def changeLoop (teamId : String) (delta : Int) : List Team → Option (List Team)
  | [] => none
  | t :: ts =>
    if t.id = teamId ∧ t.hidden = false then
      some ({ t with score := max 0 (t.score + delta) } :: ts)
    else
      (changeLoop teamId delta ts).map (t :: ·)

/-- Endpoint `POST /api/score` (`api_change_score`), after the `int(delta)` parse
has succeeded: rejects a falsy (empty) id with `400`, then runs the locked
load-mutate-save body; on "Team not found" it returns before `save_teams`,
leaving the file untouched. -/
def apiChangeScore (teamId : String) (delta : Int) (s : FileState) :
    ScoreResult × FileState :=
  if teamId = "" then (.errMissingId, s)
  else
    match changeLoop teamId delta (loadTeams s) with
    | none => (.errNotFound, s)
    | some teams => (.ok, saveTeams teams)

/-- Outcome of `POST /api/team/<id>/hide`. -/
inductive HideResult where
  | ok
  | errNotFound
deriving DecidableEq

/-- The `for t in teams` loop of `api_hide_team`: set `hidden = True` on
the first record whose `id` matches, hidden or not; `none` when no record
matches. -/
def hideLoop (teamId : String) : List Team → Option (List Team)
  | [] => none
  | t :: ts =>
    if t.id = teamId then
      some ({ t with hidden := true } :: ts)
    else
      (hideLoop teamId ts).map (t :: ·)

/-- Endpoint `POST /api/team/<id>/hide` (`api_hide_team`). -/
def apiHideTeam (teamId : String) (s : FileState) : HideResult × FileState :=
  match hideLoop teamId (loadTeams s) with
  | none => (.errNotFound, s)
  | some teams => (.ok, saveTeams teams)

/-- The ids of all records, in storage order. -/
def ids (teams : List Team) : List String :=
  teams.map (·.id)

/-- The lowercased names of the visible records, in storage order. -/
def visibleNames (teams : List Team) : List String :=
  (teams.filter fun t => !t.hidden).map fun t => lower t.name

/-- The ledger invariants: unique ids (hidden records included), no two
visible records sharing a name case-insensitively, all scores
non-negative. -/
def Inv (teams : List Team) : Prop :=
  (ids teams).Nodup ∧ (visibleNames teams).Nodup ∧ ∀ t ∈ teams, 0 ≤ t.score

instance (teams : List Team) : Decidable (Inv teams) :=
  inferInstanceAs (Decidable (_ ∧ _ ∧ _))

/-- First visible record with the given id, the record `api_change_score`
acts on. -/
def findVisible (teamId : String) (teams : List Team) : Option Team :=
  teams.find? fun t => decide (t.id = teamId ∧ t.hidden = false)

/-- One API request, as dispatched by the Flask routes. -/
inductive Op where
  | add (newId rawName : String)
  | adjust (teamId : String) (delta : Int)
  | hide (teamId : String)
  | list

/-- The file state after serving one request.  Each request holds
`data_lock` around its whole load-validate-mutate-save body, so a request
is one atomic transition. -/
def execOp (s : FileState) : Op → FileState
  | .add newId rawName => (apiAddTeam newId rawName s).2
  | .adjust teamId delta => (apiChangeScore teamId delta s).2
  | .hide teamId => (apiHideTeam teamId s).2
  | .list => (apiGetTeams s).2

/-- The file state after serving a sequence of requests in order. -/
def execOps (s : FileState) (ops : List Op) : FileState :=
  ops.foldl execOp s

/-- Whether the uuid produced for one request avoids the ids already
stored; `uuid.uuid4()` collisions are assumed away. -/
def opFresh (s : FileState) : Op → Bool
  | .add newId _ => decide (newId ∉ ids (loadTeams s))
  | _ => true

/-- Whether every uuid generated along a run of requests is fresh at the
moment it is generated. -/
def freshRun : FileState → List Op → Bool
  | _, [] => true
  | s, o :: os => opFresh s o && freshRun (execOp s o) os

/-- A sequence of `api_change_score` calls for one id, keeping only the
file state. -/
def runAdjusts (teamId : String) (ds : List Int) (s : FileState) : FileState :=
  ds.foldl (fun s d => (apiChangeScore teamId d s).2) s

/-- The score reached from `init` after applying a list of deltas, clamping
at `0` after every step exactly as `api_change_score` does. -/
def clampFold (ds : List Int) (init : Int) : Int :=
  ds.foldl (fun a d => max 0 (a + d)) init

/-! Structural lemmas about the two update loops. -/

theorem changeLoop_none_iff (teamId : String) (delta : Int) (l : List Team) :
    changeLoop teamId delta l = none ↔ ∀ t ∈ l, ¬(t.id = teamId ∧ t.hidden = false) := by
  induction l with
  | nil => simp [changeLoop]
  | cons t ts ih =>
    by_cases h : t.id = teamId ∧ t.hidden = false
    · simp [changeLoop, h]
    · simp only [changeLoop, if_neg h, Option.map_eq_none', ih, List.mem_cons]
      constructor
      · intro hts u hu
        rcases hu with rfl | hu
        · exact h
        · exact hts u hu
      · intro hall u hu
        exact hall u (Or.inr hu)

theorem changeLoop_some_spec (teamId : String) (delta : Int) :
    ∀ l l' : List Team, changeLoop teamId delta l = some l' →
      ∃ (l₁ : List Team) (t : Team) (l₂ : List Team),
        l = l₁ ++ t :: l₂ ∧
        l' = l₁ ++ { t with score := max 0 (t.score + delta) } :: l₂ ∧
        t.id = teamId ∧ t.hidden = false ∧
        ∀ u ∈ l₁, ¬(u.id = teamId ∧ u.hidden = false) := by
  intro l
  induction l with
  | nil => simp [changeLoop]
  | cons t ts ih =>
    intro l' hl'
    by_cases h : t.id = teamId ∧ t.hidden = false
    · refine ⟨[], t, ts, by simp, ?_, h.1, h.2, by simp⟩
      simp only [changeLoop, if_pos h, Option.some.injEq] at hl'
      simp [hl'.symm]
    · simp only [changeLoop, if_neg h, Option.map_eq_some'] at hl'
      obtain ⟨ts', hts', rfl⟩ := hl'
      obtain ⟨l₁, u, l₂, rfl, rfl, hu, hv, hfirst⟩ := ih ts' hts'
      exact ⟨t :: l₁, u, l₂, by simp, by simp, hu, hv, by
        intro x hx
        rcases List.mem_cons.mp hx with rfl | hx
        · exact h
        · exact hfirst x hx⟩

theorem changeLoop_append (teamId : String) (delta : Int) (l₁ : List Team) (t : Team)
    (l₂ : List Team) (h₁ : ∀ u ∈ l₁, ¬(u.id = teamId ∧ u.hidden = false))
    (ht : t.id = teamId) (hv : t.hidden = false) :
    changeLoop teamId delta (l₁ ++ t :: l₂)
      = some (l₁ ++ { t with score := max 0 (t.score + delta) } :: l₂) := by
  induction l₁ with
  | nil => simp [changeLoop, ht, hv]
  | cons u us ih =>
    have hu : ¬(u.id = teamId ∧ u.hidden = false) := h₁ u (by simp)
    have := ih fun x hx => h₁ x (by simp [hx])
    simp [changeLoop, hu, this]

theorem hideLoop_none_iff (teamId : String) (l : List Team) :
    hideLoop teamId l = none ↔ ∀ t ∈ l, t.id ≠ teamId := by
  induction l with
  | nil => simp [hideLoop]
  | cons t ts ih =>
    by_cases h : t.id = teamId
    · simp [hideLoop, h]
    · simp [hideLoop, h, ih]

theorem hideLoop_some_spec (teamId : String) :
    ∀ l l' : List Team, hideLoop teamId l = some l' →
      ∃ (l₁ : List Team) (t : Team) (l₂ : List Team),
        l = l₁ ++ t :: l₂ ∧
        l' = l₁ ++ { t with hidden := true } :: l₂ ∧
        t.id = teamId ∧
        ∀ u ∈ l₁, u.id ≠ teamId := by
  intro l
  induction l with
  | nil => simp [hideLoop]
  | cons t ts ih =>
    intro l' hl'
    by_cases h : t.id = teamId
    · refine ⟨[], t, ts, by simp, ?_, h, by simp⟩
      simp only [hideLoop, if_pos h, Option.some.injEq] at hl'
      simp [hl'.symm]
    · simp only [hideLoop, if_neg h, Option.map_eq_some'] at hl'
      obtain ⟨ts', hts', rfl⟩ := hl'
      obtain ⟨l₁, u, l₂, rfl, rfl, hu, hfirst⟩ := ih ts' hts'
      exact ⟨t :: l₁, u, l₂, by simp, by simp, hu, by
        intro x hx
        rcases List.mem_cons.mp hx with rfl | hx
        · exact h
        · exact hfirst x hx⟩

theorem hideLoop_append (teamId : String) (l₁ : List Team) (t : Team) (l₂ : List Team)
    (h₁ : ∀ u ∈ l₁, u.id ≠ teamId) (ht : t.id = teamId) :
    hideLoop teamId (l₁ ++ t :: l₂) = some (l₁ ++ { t with hidden := true } :: l₂) := by
  induction l₁ with
  | nil => simp [hideLoop, ht]
  | cons u us ih =>
    have hu : u.id ≠ teamId := h₁ u (by simp)
    have := ih fun x hx => h₁ x (by simp [hx])
    simp [hideLoop, hu, this]

theorem findVisible_none_iff (teamId : String) (l : List Team) :
    findVisible teamId l = none ↔ ∀ t ∈ l, ¬(t.id = teamId ∧ t.hidden = false) := by
  simp [findVisible, List.find?_eq_none]

theorem findVisible_append (teamId : String) (l₁ : List Team) (t : Team) (l₂ : List Team)
    (h₁ : ∀ u ∈ l₁, ¬(u.id = teamId ∧ u.hidden = false))
    (ht : t.id = teamId) (hv : t.hidden = false) :
    findVisible teamId (l₁ ++ t :: l₂) = some t := by
  induction l₁ with
  | nil => simp [findVisible, List.find?_cons, ht, hv]
  | cons u us ih =>
    have hu : ¬(u.id = teamId ∧ u.hidden = false) := h₁ u (by simp)
    have := ih fun x hx => h₁ x (by simp [hx])
    simpa [findVisible, List.find?_cons, hu] using this

/-! Claim C2: behavior of `load_teams` on a malformed `teams.json`. -/

/-- C2 counterexample: the claim says a malformed durable artifact is not
treated as an empty ledger and surfaces a fatal `CorruptStateError`; in the
code `load_teams` swallows `JSONDecodeError` and returns `[]`, exactly as
for a missing file, and the next successful mutation silently overwrites
the corrupt file with a fresh ledger. -/
theorem claim_C2_counterexample :
    loadTeams FileState.malformed = ([] : List Team) ∧
    loadTeams FileState.malformed = loadTeams FileState.absent ∧
    apiAddTeam "i1" "Alpha" FileState.malformed
      = (.ok ⟨"i1", "Alpha", 0, false⟩, .good [⟨"i1", "Alpha", 0, false⟩]) :=
  ⟨rfl, rfl, by decide⟩

/-- C2 (amended): when the durable artifact contains malformed data,
`load_teams` silently returns the empty ledger — indistinguishable from a
missing file — and every operation proceeds as if the ledger were empty;
no `CorruptStateError` is ever surfaced. -/
theorem claim_C2_amended :
    loadTeams FileState.malformed = ([] : List Team) ∧
    (∀ o : Op, loadTeams (execOp FileState.malformed o)
        = loadTeams (execOp FileState.absent o)) ∧
    apiGetTeams FileState.malformed = ([], FileState.malformed) := by
  refine ⟨rfl, ?_, ?_⟩
  · intro o
    cases o with
    | add newId rawName =>
      by_cases h : strip rawName = ""
      · simp [execOp, apiAddTeam, h, loadTeams]
      · simp [execOp, apiAddTeam, h, loadTeams, saveTeams]
    | adjust teamId delta =>
      by_cases h : teamId = ""
      · simp [execOp, apiChangeScore, h, loadTeams]
      · simp [execOp, apiChangeScore, h, loadTeams, changeLoop]
    | hide teamId => simp [execOp, apiHideTeam, loadTeams, hideLoop]
    | list => simp [execOp, apiGetTeams, loadTeams]
  · simp [apiGetTeams, loadTeams, listActive, List.mergeSort_nil]

/-! Claim C4: the `adjust_score` contract. -/

/-- C4 counterexample: for the id `""` (to which no record, visible or not,
can ever match in a way the claim's "otherwise" covers — here the ledger is
even empty), `api_change_score` answers `400 "Missing team id"`, not the
`404 NotFoundError` the claim requires for every id without a visible
match. -/
theorem claim_C4_counterexample :
    findVisible "" ([] : List Team) = none ∧
    apiChangeScore "" 1 (FileState.good []) = (.errMissingId, .good []) ∧
    ScoreResult.errMissingId ≠ ScoreResult.errNotFound := by decide

/-- C4 (amended): for any integer delta and any NON-EMPTY id,
`api_change_score` fails with `NotFoundError` exactly when no non-hidden
record has that id (a hidden record with the id does not count), and
otherwise succeeds, setting the first matching record's score to
`max 0 (score + delta)` and persisting the new ledger. -/
theorem claim_C4_amended (teamId : String) (delta : Int) (l : List Team)
    (hne : teamId ≠ "") :
    ((apiChangeScore teamId delta (.good l)).1 = .errNotFound
        ↔ findVisible teamId l = none) ∧
    (∀ (l₁ : List Team) (t : Team) (l₂ : List Team),
        l = l₁ ++ t :: l₂ → t.id = teamId → t.hidden = false →
        (∀ u ∈ l₁, ¬(u.id = teamId ∧ u.hidden = false)) →
        apiChangeScore teamId delta (.good l)
          = (.ok, .good (l₁ ++ { t with score := max 0 (t.score + delta) } :: l₂))) := by
  constructor
  · cases e : changeLoop teamId delta l with
    | none =>
      have hfv : findVisible teamId l = none :=
        (findVisible_none_iff teamId l).mpr ((changeLoop_none_iff teamId delta l).mp e)
      simp [apiChangeScore, hne, e, hfv, loadTeams]
    | some l' =>
      obtain ⟨l₁, t, l₂, rfl, -, ht, hv, hfirst⟩ := changeLoop_some_spec teamId delta _ _ e
      simp [apiChangeScore, hne, e, loadTeams,
        findVisible_append teamId l₁ t l₂ hfirst ht hv]
  · rintro l₁ t l₂ rfl ht hv hfirst
    simp [apiChangeScore, if_neg hne, loadTeams,
      changeLoop_append teamId delta l₁ t l₂ hfirst ht hv, saveTeams]

/-- C4 witness: on a ledger whose only record with id `"a"` is hidden,
`adjust_score("a", 1)` reports `NotFoundError`. -/
theorem claim_C4_witness :
    ("a" : String) ≠ "" ∧
    (apiChangeScore "a" 1 (FileState.good [⟨"a", "A", 2, true⟩])).1 = .errNotFound :=
  ⟨by decide, ((claim_C4_amended "a" 1 [⟨"a", "A", 2, true⟩] (by decide)).1).mpr (by decide)⟩

/-! Claim C6: the `hide_team` contract. -/

/-- C6: `hide_team(id)` fails with `NotFoundError` exactly when no record
with that id exists at all (hidden or not); when one exists it reports
success and sets `hidden = true` on the first match; and the operation is
idempotent — repeating it returns the same result and leaves the file
state unchanged. -/
theorem claim_C6 :
    (∀ (l : List Team) (teamId : String),
        (apiHideTeam teamId (.good l)).1 = .errNotFound ↔ ∀ t ∈ l, t.id ≠ teamId) ∧
    (∀ (l₁ : List Team) (t : Team) (l₂ : List Team) (teamId : String),
        t.id = teamId → (∀ u ∈ l₁, u.id ≠ teamId) →
        apiHideTeam teamId (.good (l₁ ++ t :: l₂))
          = (.ok, .good (l₁ ++ { t with hidden := true } :: l₂))) ∧
    (∀ (teamId : String) (s : FileState),
        apiHideTeam teamId (apiHideTeam teamId s).2 = apiHideTeam teamId s) := by
  refine ⟨?_, ?_, ?_⟩
  · intro l teamId
    cases e : hideLoop teamId l with
    | none =>
      exact iff_of_true (by simp [apiHideTeam, loadTeams, e])
        ((hideLoop_none_iff teamId l).mp e)
    | some l' =>
      obtain ⟨l₁, t, l₂, rfl, -, ht, -⟩ := hideLoop_some_spec teamId _ _ e
      refine iff_of_false (by simp [apiHideTeam, loadTeams, e]) ?_
      intro hall
      exact hall t (by simp) ht
  · intro l₁ t l₂ teamId ht h₁
    simp [apiHideTeam, loadTeams, hideLoop_append teamId l₁ t l₂ h₁ ht, saveTeams]
  · intro teamId s
    cases e : hideLoop teamId (loadTeams s) with
    | none => simp [apiHideTeam, e]
    | some l' =>
      obtain ⟨l₁, t, l₂, -, rfl, ht, hfirst⟩ := hideLoop_some_spec teamId _ _ e
      have h2 := hideLoop_append teamId l₁ { t with hidden := true } l₂ hfirst ht
      have hfirstCall : apiHideTeam teamId s
          = (.ok, .good (l₁ ++ { t with hidden := true } :: l₂)) := by
        simp [apiHideTeam, e, saveTeams]
      rw [hfirstCall]
      simp [apiHideTeam, loadTeams, saveTeams, h2]

/-- C6 witness: hiding an already-hidden record (behind an unrelated
record) still reports success and leaves the ledger unchanged. -/
theorem claim_C6_witness :
    apiHideTeam "a" (FileState.good [⟨"b", "B", 0, false⟩, ⟨"a", "A", 5, true⟩])
      = (.ok, .good [⟨"b", "B", 0, false⟩, ⟨"a", "A", 5, true⟩]) := by
  have h := claim_C6.2.1 [⟨"b", "B", 0, false⟩] ⟨"a", "A", 5, true⟩ [] "a" rfl (by decide)
  simpa using h

/-! Claim C9: mutating operations are atomic with respect to errors. -/

/-- C9: whenever `add_team`, `adjust_score` or `hide_team` returns an
error, the endpoint returns before `save_teams` is reached, so the
persisted file state is left exactly as it was; only on success is a new
ledger written. -/
theorem claim_C9 :
    (∀ (newId rawName : String) (s : FileState),
        (∀ t : Team, (apiAddTeam newId rawName s).1 ≠ .ok t) →
        (apiAddTeam newId rawName s).2 = s) ∧
    (∀ (teamId : String) (delta : Int) (s : FileState),
        (apiChangeScore teamId delta s).1 ≠ .ok →
        (apiChangeScore teamId delta s).2 = s) ∧
    (∀ (teamId : String) (s : FileState),
        (apiHideTeam teamId s).1 ≠ .ok →
        (apiHideTeam teamId s).2 = s) := by
  refine ⟨?_, ?_, ?_⟩
  · intro newId rawName s h
    by_cases h1 : strip rawName = ""
    · simp [apiAddTeam, h1]
    · by_cases h2 : (loadTeams s).any fun t => !t.hidden && lower t.name == lower (strip rawName)
      · simp [apiAddTeam, h1, h2]
      · have hok : (apiAddTeam newId rawName s).1
            = .ok { id := newId, name := strip rawName, score := 0, hidden := false } := by
          simp [apiAddTeam, h1, h2]
        exact absurd hok (h _)
  · intro teamId delta s h
    by_cases h1 : teamId = ""
    · simp [apiChangeScore, h1]
    · cases e : changeLoop teamId delta (loadTeams s) with
      | none => simp [apiChangeScore, h1, e]
      | some l' => exact absurd (by simp [apiChangeScore, h1, e]) h
  · intro teamId s h
    cases e : hideLoop teamId (loadTeams s) with
    | none => simp [apiHideTeam, e]
    | some l' => exact absurd (by simp [apiHideTeam, e]) h

/-- C9 witness: an empty-name add, an unknown-id adjust and an unknown-id
hide each error out and leave the file bytes untouched. -/
theorem claim_C9_witness :
    (apiAddTeam "i1" "   " (FileState.good [⟨"a", "A", 2, false⟩])).2
        = FileState.good [⟨"a", "A", 2, false⟩] ∧
    (apiChangeScore "x" 3 (FileState.good [⟨"a", "A", 2, false⟩])).2
        = FileState.good [⟨"a", "A", 2, false⟩] ∧
    (apiHideTeam "x" (FileState.good [⟨"a", "A", 2, false⟩])).2
        = FileState.good [⟨"a", "A", 2, false⟩] := by
  refine ⟨claim_C9.1 "i1" "   " _ ?_, claim_C9.2.1 "x" 3 _ (by decide),
    claim_C9.2.2 "x" _ (by decide)⟩
  intro t hc
  rw [show (apiAddTeam "i1" "   " (FileState.good [⟨"a", "A", 2, false⟩])).1
      = .errNameRequired by decide] at hc
  exact AddResult.noConfusion hc

/-! Claim C10: the frame property of a successful `adjust_score`. -/

/-- C10: a successful `adjust_score(id, delta)` rewrites the ledger as the
same list with exactly one record replaced: the first non-hidden record
carrying the id keeps its `id`, `name` and `hidden` fields and only its
`score` changes (to the clamped value); every record before and after it,
and the storage order, are untouched. -/
theorem claim_C10 (teamId : String) (delta : Int) (l l' : List Team)
    (h : apiChangeScore teamId delta (.good l) = (.ok, .good l')) :
    ∃ (l₁ : List Team) (t : Team) (l₂ : List Team),
      l = l₁ ++ t :: l₂ ∧ t.id = teamId ∧ t.hidden = false ∧
      (∀ u ∈ l₁, ¬(u.id = teamId ∧ u.hidden = false)) ∧
      l' = l₁ ++ { id := t.id, name := t.name,
                   score := max 0 (t.score + delta), hidden := t.hidden } :: l₂ := by
  by_cases h1 : teamId = ""
  · simp [apiChangeScore, h1] at h
  · cases e : changeLoop teamId delta l with
    | none => simp [apiChangeScore, h1, loadTeams, e] at h
    | some lu =>
      simp only [apiChangeScore, if_neg h1, loadTeams, e, saveTeams,
        Prod.mk.injEq, FileState.good.injEq, true_and] at h
      obtain ⟨l₁, t, l₂, rfl, rfl, ht, hv, hfirst⟩ := changeLoop_some_spec teamId delta _ _ e
      exact ⟨l₁, t, l₂, rfl, ht, hv, hfirst, by cases t with | mk => simp [h.symm, hv]⟩

/-- C10 witness: adjusting the middle record of a three-record ledger
changes only that record's score. -/
theorem claim_C10_witness :
    ∃ (l₁ : List Team) (t : Team) (l₂ : List Team),
      ([⟨"a", "A", 1, false⟩, ⟨"b", "B", 2, false⟩, ⟨"c", "C", 3, false⟩] : List Team)
          = l₁ ++ t :: l₂ ∧ t.id = "b" ∧ t.hidden = false ∧
      (∀ u ∈ l₁, ¬(u.id = "b" ∧ u.hidden = false)) ∧
      [⟨"a", "A", 1, false⟩, ⟨"b", "B", 7, false⟩, ⟨"c", "C", 3, false⟩]
          = l₁ ++ { id := t.id, name := t.name,
                    score := max 0 (t.score + 5), hidden := t.hidden } :: l₂ :=
  claim_C10 "b" 5 _ _ (by decide)

/-! Runs of `adjust_score` calls against one record. -/

theorem runAdjusts_spec (teamId : String) (hne : teamId ≠ "") :
    ∀ (ds : List Int) (l₁ : List Team) (t : Team) (l₂ : List Team),
      t.id = teamId → t.hidden = false →
      (∀ u ∈ l₁, ¬(u.id = teamId ∧ u.hidden = false)) →
      runAdjusts teamId ds (.good (l₁ ++ t :: l₂))
        = .good (l₁ ++ { t with score := clampFold ds t.score } :: l₂) := by
  intro ds
  induction ds with
  | nil =>
    intro l₁ t l₂ ht hv hfirst
    simp [runAdjusts, clampFold]
  | cons d ds ih =>
    intro l₁ t l₂ ht hv hfirst
    have hstep : apiChangeScore teamId d (.good (l₁ ++ t :: l₂))
        = (.ok, .good (l₁ ++ { t with score := max 0 (t.score + d) } :: l₂)) := by
      simp [apiChangeScore, hne, loadTeams, saveTeams,
        changeLoop_append teamId d l₁ t l₂ hfirst ht hv]
    have hrec := ih l₁ { t with score := max 0 (t.score + d) } l₂ ht hv hfirst
    calc runAdjusts teamId (d :: ds) (.good (l₁ ++ t :: l₂))
        = runAdjusts teamId ds (apiChangeScore teamId d (.good (l₁ ++ t :: l₂))).2 := rfl
      _ = runAdjusts teamId ds (.good (l₁ ++ { t with score := max 0 (t.score + d) } :: l₂)) := by
          rw [hstep]
      _ = .good (l₁ ++ { t with score := clampFold (d :: ds) t.score } :: l₂) := by
          rw [hrec]
          simp [clampFold]

theorem clampFold_nonneg : ∀ (ds : List Int) (s : Int), 0 ≤ s → 0 ≤ clampFold ds s := by
  intro ds
  induction ds with
  | nil => intro s hs; simpa [clampFold] using hs
  | cons d ds ih =>
    intro s hs
    have := ih (max 0 (s + d)) (le_max_left 0 (s + d))
    simpa [clampFold] using this

theorem clampFold_replicate_one :
    ∀ (N : Nat) (s : Int), 0 ≤ s → clampFold (List.replicate N 1) s = s + N := by
  intro N
  induction N with
  | zero => intro s hs; simp [clampFold]
  | succ n ih =>
    intro s hs
    have h1 : max 0 (s + 1) = s + 1 := max_eq_right (by omega)
    have := ih (s + 1) (by omega)
    calc clampFold (List.replicate (n + 1) 1) s
        = clampFold (List.replicate n 1) (max 0 (s + 1)) := by
          simp [clampFold, List.replicate_succ]
      _ = s + (n + 1 : Nat) := by rw [h1, this]; push_cast; ring

/-! Claim C1: N serialized `adjust_score(id, +1)` calls add exactly N. -/

/-- C1: every endpoint body holds `data_lock` around its whole
load-validate-mutate-save sequence, so concurrent requests execute as some
serial order of atomic transitions; in any such order, N `adjust_score(id, +1)`
calls against a visible record with non-negative score leave its score
exactly N above the initial value (no lost updates), all other records
untouched. -/
theorem claim_C1 (N : Nat) (teamId : String) (l₁ : List Team) (t : Team) (l₂ : List Team)
    (hne : teamId ≠ "") (ht : t.id = teamId) (hv : t.hidden = false) (hs : 0 ≤ t.score)
    (hfirst : ∀ u ∈ l₁, ¬(u.id = teamId ∧ u.hidden = false)) :
    runAdjusts teamId (List.replicate N 1) (.good (l₁ ++ t :: l₂))
      = .good (l₁ ++ { t with score := t.score + N } :: l₂) := by
  rw [runAdjusts_spec teamId hne (List.replicate N 1) l₁ t l₂ ht hv hfirst,
    clampFold_replicate_one N t.score hs]

/-- C1 witness: three +1 adjustments take a score of 2 to 5. -/
theorem claim_C1_witness :
    ("a" : String) ≠ "" ∧
    runAdjusts "a" (List.replicate 3 1) (FileState.good [⟨"a", "A", 2, false⟩])
      = FileState.good [⟨"a", "A", 5, false⟩] := by
  refine ⟨by decide, ?_⟩
  have h := claim_C1 3 "a" [] ⟨"a", "A", 2, false⟩ [] (by decide) rfl rfl (by decide) (by simp)
  simpa using h

/-! Claim C3: scores along a sequence of `adjust_score` calls. -/

/-- C3 counterexample: the claim says the score after a sequence of calls
equals `max(0, sum of deltas)`; but the code clamps after every single
call, so deltas `[-5, +3]` from score 0 yield 3 while
`max(0, -5 + 3) = 0`. -/
theorem claim_C3_counterexample :
    loadTeams (runAdjusts "a" [-5, 3] (FileState.good [⟨"a", "A", 0, false⟩]))
      = [⟨"a", "A", 3, false⟩] ∧
    max 0 (List.sum [-5, 3] : Int) = 0 ∧
    (3 : Int) ≠ 0 := by decide

/-- C3 (amended): for every record (starting from score 0 at creation) and
every finite sequence of deltas, the score observed after the calls equals
the left fold that clamps at zero after each step
(`foldl (fun a d => max 0 (a + d)) 0`), and is never negative; since the
delta list is universally quantified this describes the score after every
intermediate call as well. -/
theorem claim_C3_amended (teamId : String) (l₁ : List Team) (t : Team) (l₂ : List Team)
    (hne : teamId ≠ "") (ht : t.id = teamId) (hv : t.hidden = false) (h0 : t.score = 0)
    (hfirst : ∀ u ∈ l₁, ¬(u.id = teamId ∧ u.hidden = false)) :
    ∀ ds : List Int,
      runAdjusts teamId ds (.good (l₁ ++ t :: l₂))
        = .good (l₁ ++ { t with score := clampFold ds 0 } :: l₂) ∧
      0 ≤ clampFold ds 0 := by
  intro ds
  constructor
  · rw [runAdjusts_spec teamId hne ds l₁ t l₂ ht hv hfirst, h0]
  · exact clampFold_nonneg ds 0 le_rfl

/-- C3 witness: deltas `[2, -5, 4]` from score 0 end at 4 (clamped to 0 in
the middle), and the clamped fold is non-negative. -/
theorem claim_C3_witness :
    ("a" : String) ≠ "" ∧
    clampFold [2, -5, 4] 0 = 4 ∧
    runAdjusts "a" [2, -5, 4] (FileState.good [⟨"a", "A", 0, false⟩])
      = FileState.good [⟨"a", "A", clampFold [2, -5, 4] 0, false⟩] ∧
    0 ≤ clampFold [2, -5, 4] 0 := by
  have h := claim_C3_amended "a" [] ⟨"a", "A", 0, false⟩ [] (by decide) rfl rfl rfl
    (by simp) [2, -5, 4]
  exact ⟨by decide, by decide, by simpa using h.1, h.2⟩

/-! Claim C5: the `add_team` contract. -/

/-- C5: `add_team` rejects a name that is empty after trimming with
`ValidationError` ("Team name is required"); rejects a trimmed name that
matches some non-hidden record case-insensitively with `ConflictError`
("Team already exists" — hidden records do not conflict); and otherwise
appends a record with the generated id, the trimmed name, score 0 and
`hidden = false`, persists the full ledger, and returns the new record;
when the generated uuid is fresh the new id differs from every stored
one. -/
theorem claim_C5 (newId rawName : String) (l : List Team) :
    (strip rawName = "" →
      apiAddTeam newId rawName (.good l) = (.errNameRequired, .good l)) ∧
    (strip rawName ≠ "" →
      (∃ t ∈ l, t.hidden = false ∧ lower t.name = lower (strip rawName)) →
      apiAddTeam newId rawName (.good l) = (.errAlreadyExists, .good l)) ∧
    (strip rawName ≠ "" →
      (∀ t ∈ l, t.hidden = false → lower t.name ≠ lower (strip rawName)) →
      newId ∉ ids l →
      apiAddTeam newId rawName (.good l)
        = (.ok { id := newId, name := strip rawName, score := 0, hidden := false },
           .good (l ++ [{ id := newId, name := strip rawName, score := 0, hidden := false }]))
      ∧ ∀ u ∈ l, u.id ≠ newId) := by
  refine ⟨?_, ?_, ?_⟩
  · intro h1
    simp [apiAddTeam, h1]
  · rintro h1 ⟨t, htl, hv, hn⟩
    have hany : (l.any fun t => !t.hidden && lower t.name == lower (strip rawName)) = true := by
      rw [List.any_eq_true]
      exact ⟨t, htl, by simp [hv, hn]⟩
    simp [apiAddTeam, h1, loadTeams, hany]
  · intro h1 h2 hfresh
    have hany : (l.any fun t => !t.hidden && lower t.name == lower (strip rawName)) = false := by
      rw [List.any_eq_false]
      intro t htl
      simp only [Bool.and_eq_true, Bool.not_eq_true', beq_iff_eq, not_and]
      exact h2 t htl
    refine ⟨by simp [apiAddTeam, h1, loadTeams, hany, saveTeams], ?_⟩
    intro u hul hu
    exact hfresh (by simpa [ids, hu.symm] using List.mem_map_of_mem (·.id) hul)

/-- C5 witness: adding `" Alpha "` to a ledger holding only `"Beta"`
succeeds, trims the name, and appends the new record. -/
theorem claim_C5_witness :
    strip " Alpha " ≠ "" ∧
    apiAddTeam "i1" " Alpha " (FileState.good [⟨"a", "Beta", 1, false⟩])
      = (.ok ⟨"i1", "Alpha", 0, false⟩,
         .good [⟨"a", "Beta", 1, false⟩, ⟨"i1", "Alpha", 0, false⟩]) := by
  have h := (claim_C5 "i1" " Alpha " [⟨"a", "Beta", 1, false⟩]).2.2 (by decide)
    (by decide) (by decide)
  have hs : strip " Alpha " = "Alpha" := by decide
  refine ⟨by decide, ?_⟩
  rw [hs] at h
  simpa using h.1

/-! Claim C7: the `list_active` read. -/

/-- C7: `api_get_teams` returns exactly the records with `hidden = false`
(as a permutation of the filtered ledger), sorted by score descending;
because Python's sort — like the merge sort modelling it — is stable, the
records of any fixed score appear in exactly their ledger storage order
(so ties are deterministic across repeated calls); and the operation never
writes the file. -/
theorem claim_C7 (l : List Team) :
    ((listActive l).Perm (l.filter fun t => !t.hidden)) ∧
    ((listActive l).Pairwise fun a b => b.score ≤ a.score) ∧
    (∀ sc : Int, (listActive l).filter (fun t => decide (t.score = sc))
        = (l.filter fun t => !t.hidden).filter fun t => decide (t.score = sc)) ∧
    apiGetTeams (FileState.good l) = (listActive l, FileState.good l) := by
  have htrans : ∀ a b c : Team, (decide (b.score ≤ a.score)) = true →
      (decide (c.score ≤ b.score)) = true → (decide (c.score ≤ a.score)) = true := by
    intro a b c hab hbc
    simp only [decide_eq_true_eq] at hab hbc ⊢
    exact le_trans hbc hab
  have htotal : ∀ a b : Team,
      ((decide (b.score ≤ a.score)) || (decide (a.score ≤ b.score))) = true := by
    intro a b
    simp only [Bool.or_eq_true, decide_eq_true_eq]
    exact le_total b.score a.score
  refine ⟨?_, ?_, ?_, rfl⟩
  · simpa [listActive] using
      List.mergeSort_perm (l.filter fun t => !t.hidden) fun a b => decide (b.score ≤ a.score)
  · have h := List.sorted_mergeSort htrans htotal (l.filter fun t => !t.hidden)
    have h2 : (listActive l).Pairwise fun a b => (decide (b.score ≤ a.score)) = true := h
    exact h2.imp fun hd => of_decide_eq_true hd
  · intro sc
    have hall : ∀ t ∈ (l.filter fun t => !t.hidden).filter (fun t => decide (t.score = sc)),
        t.score = sc := by
      intro t ht
      simpa using List.of_mem_filter ht
    have hc : ((l.filter fun t => !t.hidden).filter
        (fun t => decide (t.score = sc))).Pairwise
          fun a b => (decide (b.score ≤ a.score)) = true := by
      apply List.pairwise_of_forall_mem_list
      intro a ha b hb
      simp [hall a ha, hall b hb]
    have h1 : ((l.filter fun t => !t.hidden).filter (fun t => decide (t.score = sc))).Sublist
        (listActive l) := by
      have := List.sublist_mergeSort htrans htotal hc
        (List.filter_sublist (l.filter fun t => !t.hidden))
      simpa [listActive] using this
    have hperm : ((listActive l).filter (fun t => decide (t.score = sc))).Perm
        ((l.filter fun t => !t.hidden).filter (fun t => decide (t.score = sc))) := by
      have := (List.mergeSort_perm (l.filter fun t => !t.hidden)
        fun a b => decide (b.score ≤ a.score)).filter (fun t => decide (t.score = sc))
      simpa [listActive] using this
    have hidem : ((l.filter fun t => !t.hidden).filter
          (fun t => decide (t.score = sc))).filter (fun t => decide (t.score = sc))
        = (l.filter fun t => !t.hidden).filter (fun t => decide (t.score = sc)) :=
      List.filter_eq_self.mpr fun a ha => (List.mem_filter.mp ha).2
    have h3 : ((l.filter fun t => !t.hidden).filter (fun t => decide (t.score = sc))).Sublist
        ((listActive l).filter (fun t => decide (t.score = sc))) := by
      have := h1.filter (fun t => decide (t.score = sc))
      rwa [hidem] at this
    exact (h3.eq_of_length hperm.length_eq.symm).symm

/-! Claim C8: the ledger invariants are preserved by every operation. -/

theorem ids_append (a b : List Team) : ids (a ++ b) = ids a ++ ids b := by
  simp [ids]

theorem visibleNames_append (a b : List Team) :
    visibleNames (a ++ b) = visibleNames a ++ visibleNames b := by
  simp [visibleNames, List.filter_append]

theorem inv_apiAddTeam (newId rawName : String) (s : FileState)
    (hInv : Inv (loadTeams s)) (hfresh : newId ∉ ids (loadTeams s)) :
    Inv (loadTeams (apiAddTeam newId rawName s).2) := by
  by_cases h1 : strip rawName = ""
  · simpa [apiAddTeam, h1] using hInv
  · by_cases h2 : ((loadTeams s).any fun t => !t.hidden && lower t.name == lower (strip rawName))
        = true
    · simpa [apiAddTeam, h1, h2] using hInv
    · have hstate : (apiAddTeam newId rawName s).2
          = .good (loadTeams s ++ [⟨newId, strip rawName, 0, false⟩]) := by
        simp [apiAddTeam, h1, h2, saveTeams]
      rw [hstate]
      obtain ⟨hids, hnames, hscores⟩ := hInv
      have hnot : lower (strip rawName) ∉ visibleNames (loadTeams s) := by
        intro hmem
        simp only [visibleNames, List.mem_map] at hmem
        obtain ⟨t, htf, hte⟩ := hmem
        obtain ⟨htl, htv⟩ := List.mem_filter.mp htf
        apply h2
        rw [List.any_eq_true]
        exact ⟨t, htl, by simp [htv, hte]⟩
      refine ⟨?_, ?_, ?_⟩
      · show (ids (loadTeams s ++ [⟨newId, strip rawName, 0, false⟩])).Nodup
        rw [ids_append]
        refine List.nodup_append.mpr ⟨hids, by simp [ids], ?_⟩
        intro a ha hb
        simp only [ids, List.map_cons, List.map_nil, List.mem_singleton] at hb
        subst hb
        exact hfresh ha
      · show (visibleNames (loadTeams s ++ [⟨newId, strip rawName, 0, false⟩])).Nodup
        rw [visibleNames_append]
        refine List.nodup_append.mpr ⟨hnames, by simp [visibleNames], ?_⟩
        intro a ha hb
        simp only [visibleNames, List.filter_cons, List.filter_nil] at hb
        simp only [show (!(⟨newId, strip rawName, 0, false⟩ : Team).hidden) = true from rfl,
          if_true, List.map_cons, List.map_nil, List.mem_singleton] at hb
        subst hb
        exact hnot ha
      · intro u hu
        rcases List.mem_append.mp hu with hul | hur
        · exact hscores u hul
        · simp only [List.mem_singleton] at hur
          subst hur
          exact le_refl 0

theorem inv_apiChangeScore (teamId : String) (delta : Int) (s : FileState)
    (hInv : Inv (loadTeams s)) :
    Inv (loadTeams (apiChangeScore teamId delta s).2) := by
  by_cases h1 : teamId = ""
  · simpa [apiChangeScore, h1] using hInv
  · cases e : changeLoop teamId delta (loadTeams s) with
    | none => simpa [apiChangeScore, h1, e] using hInv
    | some lu =>
      have hstate : (apiChangeScore teamId delta s).2 = .good lu := by
        simp [apiChangeScore, h1, e, saveTeams]
      rw [hstate]
      obtain ⟨l₁, t, l₂, hl, rfl, ht, hv, -⟩ := changeLoop_some_spec teamId delta _ _ e
      obtain ⟨hids, hnames, hscores⟩ := hInv
      rw [hl] at hids hnames hscores
      refine ⟨?_, ?_, ?_⟩
      · show (ids (l₁ ++ { t with score := max 0 (t.score + delta) } :: l₂)).Nodup
        simpa [ids] using hids
      · show (visibleNames (l₁ ++ { t with score := max 0 (t.score + delta) } :: l₂)).Nodup
        simpa [visibleNames, List.filter_append, List.filter_cons, hv] using hnames
      · intro u hu
        rcases List.mem_append.mp hu with hul | hur
        · exact hscores u (List.mem_append.mpr (Or.inl hul))
        · rcases List.mem_cons.mp hur with rfl | hul₂
          · exact le_max_left 0 (t.score + delta)
          · exact hscores u (List.mem_append.mpr (Or.inr (List.mem_cons_of_mem t hul₂)))

theorem inv_apiHideTeam (teamId : String) (s : FileState)
    (hInv : Inv (loadTeams s)) :
    Inv (loadTeams (apiHideTeam teamId s).2) := by
  cases e : hideLoop teamId (loadTeams s) with
  | none => simpa [apiHideTeam, e] using hInv
  | some lu =>
    have hstate : (apiHideTeam teamId s).2 = .good lu := by
      simp [apiHideTeam, e, saveTeams]
    rw [hstate]
    obtain ⟨l₁, t, l₂, hl, rfl, ht, -⟩ := hideLoop_some_spec teamId _ _ e
    obtain ⟨hids, hnames, hscores⟩ := hInv
    rw [hl] at hids hnames hscores
    refine ⟨?_, ?_, ?_⟩
    · show (ids (l₁ ++ { t with hidden := true } :: l₂)).Nodup
      simpa [ids] using hids
    · show (visibleNames (l₁ ++ { t with hidden := true } :: l₂)).Nodup
      have hsub : (visibleNames (l₁ ++ { t with hidden := true } :: l₂)).Sublist
          (visibleNames (l₁ ++ t :: l₂)) := by
        rw [visibleNames_append, visibleNames_append]
        refine List.Sublist.append_left ?_ (visibleNames l₁)
        have hv2 : visibleNames ({ t with hidden := true } :: l₂) = visibleNames l₂ := by
          simp [visibleNames, List.filter_cons]
        rw [hv2]
        cases hth : t.hidden with
        | true =>
          have h4 : visibleNames (t :: l₂) = visibleNames l₂ := by
            simp [visibleNames, List.filter_cons, hth]
          rw [h4]
        | false =>
          have h4 : visibleNames (t :: l₂) = lower t.name :: visibleNames l₂ := by
            simp [visibleNames, List.filter_cons, hth]
          rw [h4]
          exact List.sublist_cons_self _ _
      exact hnames.sublist hsub
    · intro u hu
      rcases List.mem_append.mp hu with hul | hur
      · exact hscores u (List.mem_append.mpr (Or.inl hul))
      · rcases List.mem_cons.mp hur with rfl | hul₂
        · exact hscores t (List.mem_append.mpr (Or.inr (List.mem_cons_self t l₂)))
        · exact hscores u (List.mem_append.mpr (Or.inr (List.mem_cons_of_mem t hul₂)))

/-- C8: starting from any file state whose loaded ledger satisfies the
invariants — unique ids across hidden and visible records, case-insensitive
name uniqueness among visible records, non-negative scores — any sequence
of API requests preserves them, provided every uuid generated by
`api_add_team` is fresh (the collision-freedom `uuid.uuid4()` is relied on
for). -/
theorem claim_C8 (ops : List Op) (s : FileState)
    (hInv : Inv (loadTeams s)) (hfr : freshRun s ops = true) :
    Inv (loadTeams (execOps s ops)) := by
  induction ops generalizing s with
  | nil => simpa [execOps] using hInv
  | cons o os ih =>
    simp only [freshRun, Bool.and_eq_true] at hfr
    obtain ⟨hf, hrest⟩ := hfr
    have hexec : execOps s (o :: os) = execOps (execOp s o) os := rfl
    rw [hexec]
    refine ih (execOp s o) ?_ hrest
    cases o with
    | add newId rawName =>
      exact inv_apiAddTeam newId rawName s hInv (of_decide_eq_true hf)
    | adjust teamId delta => exact inv_apiChangeScore teamId delta s hInv
    | hide teamId => exact inv_apiHideTeam teamId s hInv
    | list => simpa [execOp, apiGetTeams] using hInv

/-- C8 witness: a run of two adds, two adjustments (one clamping below
zero), a hide and a read, starting from the empty ledger, ends in a state
satisfying all three invariants. -/
theorem claim_C8_witness :
    Inv (loadTeams (FileState.good [])) ∧
    freshRun (FileState.good [])
      [Op.add "i1" "Alpha", Op.add "i2" " beta", Op.adjust "i1" 5, Op.hide "i2",
       Op.adjust "i1" (-9), Op.list] = true ∧
    Inv (loadTeams (execOps (FileState.good [])
      [Op.add "i1" "Alpha", Op.add "i2" " beta", Op.adjust "i1" 5, Op.hide "i2",
       Op.adjust "i1" (-9), Op.list])) :=
  ⟨by decide, by decide,
   claim_C8 [Op.add "i1" "Alpha", Op.add "i2" " beta", Op.adjust "i1" 5, Op.hide "i2",
     Op.adjust "i1" (-9), Op.list] (FileState.good []) (by decide) (by decide)⟩

example : strip "  a b  " = "a b" := by decide
example : lower "AbC" = "abc" := by decide
example : apiAddTeam "i1" " Alpha " (.good [])
    = (.ok ⟨"i1", "Alpha", 0, false⟩, .good [⟨"i1", "Alpha", 0, false⟩]) := by decide
example : apiChangeScore "" 1 (.good []) = (.errMissingId, .good []) := by decide
example : loadTeams (runAdjusts "a" [-5, 3] (.good [⟨"a", "A", 0, false⟩]))
    = [⟨"a", "A", 3, false⟩] := by decide
example : apiHideTeam "a" (.good [⟨"a", "A", 0, false⟩])
    = (.ok, .good [⟨"a", "A", 0, true⟩]) := by decide
example : freshRun (.good []) [.add "i1" "Alpha", .adjust "i1" 5, .hide "i1"] = true := by decide

end ShotCounter
